import Mathlib

/-!
Verification of the V3CTK processing core against its specification.

The development shallowly embeds the Python sources:
  * `multiplexer.py` — the V3C sample-stream unit parser and the
    per-segment multiplexer (`parse_v3c_units`, `combine_per_segment`);
  * `src/tile_generator.py` — the spatial partitioner's tile-index
    computation and empty-tile placeholder (`_process_frame`);
  * `src/tile_io.py` — the PLY writer/reader at record level;
  * `src/encoder/tmc2_encoder.py` — frame-sequence inference, QP-pair
    normalisation, job-list construction and parameter materialisation.

Byte streams are `List Nat` (each element a byte value), numeric point
data is `ℚ`, and Python exceptions are an explicit error type.
-/

/-- Python exception classes raised by the embedded code. -/
inductive PyError
  | valueError (msg : String)
  | indexError
  | runtimeError (msg : String)
deriving DecidableEq, Repr

/-! ## Bitstream unit parser (`multiplexer.py`, `parse_v3c_units`) -/

/-- `int.from_bytes(bs, "big")`. -/
def fromBytesBE (bs : List Nat) : Nat :=
  bs.foldl (fun a b => a * 256 + b) 0

/-- Big-endian encoding of `n` into exactly `L` bytes
(`n.to_bytes(L, "big")` when `n < 256 ^ L`). -/
def toBytesBE : Nat → Nat → List Nat
  | 0, _ => []
  | L + 1, n => toBytesBE L (n / 256) ++ [n % 256]

/-- The loop of `parse_v3c_units`: `rest` is the stream after the header
byte, `L` the size-field width.  Mirrors
`while offset + size_len <= data_len: ...` including the `ValueError`
on a truncated unit and the `IndexError` raised by `payload[0]` on an
empty payload. -/
def parseUnits (L : Nat) (rest : List Nat) :
    Except PyError (List (Nat × List Nat)) :=
  if hrem : rest.length < L then
    .ok []
  else
    if htr : (rest.drop L).length < fromBytesBE (rest.take L) then
      .error (.valueError "Truncated unit")
    else
      match hp : (rest.drop L).take (fromBytesBE (rest.take L)) with
      | [] => .error .indexError
      | b :: bs =>
        match parseUnits L ((rest.drop L).drop (fromBytesBE (rest.take L))) with
        | .ok us => .ok (((b >>> 3) &&& 31, rest.take L ++ b :: bs) :: us)
        | .error e => .error e
termination_by rest.length
decreasing_by
  have hsz : 0 < fromBytesBE (rest.take L) := by
    by_contra hc
    push_neg at hc
    rw [Nat.le_zero] at hc
    rw [hc] at hp
    simp at hp
  have hne : rest.drop L ≠ [] := by
    intro h0
    rw [h0] at hp
    simp at hp
  have hpos : 0 < (rest.drop L).length := List.length_pos.mpr hne
  simp only [List.length_drop] at hpos ⊢
  omega

/-- `parse_v3c_units` from `multiplexer.py`: returns the full list of
`(unit_type, full_unit_bytes)` pairs (the Python generator, run to
exhaustion), or the exception it raises. -/
def parse_v3c_units (data : List Nat) : Except PyError (List (Nat × List Nat)) :=
  match data with
  | [] => .ok []
  | header :: rest => parseUnits ((header >>> 5) + 1) rest

/-! ### Well-formed sample streams -/

/-- One length-prefixed unit: `L`-byte big-endian size field followed by
the payload. -/
def encodeUnit (L : Nat) (p : List Nat) : List Nat :=
  toBytesBE L p.length ++ p

/-- The unit type carried by a payload: bits 3–7 of its first byte. -/
def unitTypeOf (p : List Nat) : Nat :=
  (p.headI >>> 3) &&& 31

/-- A track byte stream: header byte followed by length-prefixed units
whose size-field width is derived from the header's top 3 bits. -/
def v3cStream (h : Nat) (ps : List (List Nat)) : List Nat :=
  h :: (ps.map (encodeUnit ((h >>> 5) + 1))).flatten

/-- Well-formedness of the units of a stream with size-field width `L`:
each payload is non-empty (it carries a type byte), fits the size field,
and consists of byte values. -/
def WFUnits (L : Nat) (ps : List (List Nat)) : Prop :=
  ∀ p ∈ ps, p ≠ [] ∧ p.length < 256 ^ L ∧ ∀ b ∈ p, b < 256

theorem length_toBytesBE (L n : Nat) : (toBytesBE L n).length = L := by
  induction L generalizing n with
  | zero => rfl
  | succ L ih => simp [toBytesBE, ih]

theorem fromBytesBE_append (xs ys : List Nat) :
    fromBytesBE (xs ++ ys) = ys.foldl (fun a b => a * 256 + b) (fromBytesBE xs) := by
  simp [fromBytesBE, List.foldl_append]

theorem fromBytesBE_toBytesBE (L n : Nat) (h : n < 256 ^ L) :
    fromBytesBE (toBytesBE L n) = n := by
  induction L generalizing n with
  | zero =>
    simp [pow_zero] at h
    simp [toBytesBE, fromBytesBE, h]
  | succ L ih =>
    have hdiv : n / 256 < 256 ^ L := by
      rw [Nat.div_lt_iff_lt_mul (by norm_num)]
      calc n < 256 ^ (L + 1) := h
        _ = 256 ^ L * 256 := by ring
    rw [toBytesBE, fromBytesBE_append, ih _ hdiv]
    simp [fromBytesBE]
    omega

/-- The list of `(unit_type, full_unit_bytes)` pairs the parser yields for
the units of a well-formed stream. -/
def v3cUnits (L : Nat) (ps : List (List Nat)) : List (Nat × List Nat) :=
  ps.map (fun p => (unitTypeOf p, encodeUnit L p))

theorem parseUnits_nil (L : Nat) (hL : 1 ≤ L) : parseUnits L [] = .ok [] := by
  rw [parseUnits]
  exact dif_pos hL

theorem parseUnits_short (L : Nat) (tail : List Nat) (h : tail.length < L) :
    parseUnits L tail = .ok [] := by
  rw [parseUnits]
  exact dif_pos h

/-- Parsing one complete non-empty unit at the front of the remaining
stream consumes exactly that unit and yields its type and full bytes. -/
theorem parseUnits_encodeUnit (L : Nat) (p tail : List Nat)
    (hne : p ≠ []) (hlt : p.length < 256 ^ L) :
    parseUnits L (encodeUnit L p ++ tail) =
      match parseUnits L tail with
      | .ok us => .ok ((unitTypeOf p, encodeUnit L p) :: us)
      | .error e => .error e := by
  obtain ⟨b, bs, rfl⟩ := List.exists_cons_of_ne_nil hne
  have hsb : (toBytesBE L (b :: bs).length).length = L := length_toBytesBE L _
  have hassoc : encodeUnit L (b :: bs) ++ tail
      = toBytesBE L (b :: bs).length ++ (b :: bs ++ tail) := by
    simp [encodeUnit]
  have htake : (encodeUnit L (b :: bs) ++ tail).take L = toBytesBE L (b :: bs).length := by
    have h0 := List.take_left (toBytesBE L (b :: bs).length) (b :: bs ++ tail)
    rw [hsb] at h0
    rw [hassoc, h0]
  have hdrop : (encodeUnit L (b :: bs) ++ tail).drop L = b :: bs ++ tail := by
    have h0 := List.drop_left (toBytesBE L (b :: bs).length) (b :: bs ++ tail)
    rw [hsb] at h0
    rw [hassoc, h0]
  have hsize : fromBytesBE (toBytesBE L (b :: bs).length) = (b :: bs).length :=
    fromBytesBE_toBytesBE _ _ hlt
  have hlen1 : ¬ (encodeUnit L (b :: bs) ++ tail).length < L := by
    rw [hassoc]
    simp only [List.length_append, hsb]
    omega
  rw [parseUnits, dif_neg hlen1]
  simp only [htake, hdrop, hsize]
  rw [dif_neg (by rw [List.length_append]; omega)]
  split
  · rename_i hp0
    rw [htake, hsize, hdrop, List.take_left] at hp0
    exact absurd hp0 (List.cons_ne_nil b bs)
  · rename_i b1 bs1 hp0
    rw [htake, hsize, hdrop, List.take_left] at hp0
    injection hp0 with h1 h2
    subst h1
    subst h2
    rw [List.drop_left]
    cases h' : parseUnits L tail with
    | ok us => simp [h', unitTypeOf, encodeUnit]
    | error e => simp [h']

/-- Parsing a run of complete units followed by `tail` yields all those
units and then continues on `tail`. -/
theorem parseUnits_flatten (L : Nat) (ps : List (List Nat)) (tail : List Nat)
    (hwf : ∀ p ∈ ps, p ≠ [] ∧ p.length < 256 ^ L) :
    parseUnits L ((ps.map (encodeUnit L)).flatten ++ tail) =
      match parseUnits L tail with
      | .ok us => .ok (v3cUnits L ps ++ us)
      | .error e => .error e := by
  induction ps with
  | nil =>
    simp [v3cUnits]
    cases parseUnits L tail <;> rfl
  | cons p ps ih =>
    obtain ⟨hne, hlt⟩ := hwf p (List.mem_cons_self p ps)
    have hwf' : ∀ q ∈ ps, q ≠ [] ∧ q.length < 256 ^ L :=
      fun q hq => hwf q (List.mem_cons_of_mem p hq)
    simp only [List.map_cons, List.flatten_cons, List.append_assoc]
    rw [parseUnits_encodeUnit L p _ hne hlt, ih hwf']
    cases parseUnits L tail <;> simp [v3cUnits]

/-- Specialisation to a whole well-formed stream (empty tail). -/
theorem parse_v3c_units_stream (h : Nat) (ps : List (List Nat))
    (hwf : ∀ p ∈ ps, p ≠ [] ∧ p.length < 256 ^ ((h >>> 5) + 1)) :
    parse_v3c_units (v3cStream h ps) = .ok (v3cUnits ((h >>> 5) + 1) ps) := by
  show parseUnits ((h >>> 5) + 1) ((ps.map (encodeUnit ((h >>> 5) + 1))).flatten)
      = .ok (v3cUnits ((h >>> 5) + 1) ps)
  have := parseUnits_flatten ((h >>> 5) + 1) ps [] hwf
  rw [List.append_nil] at this
  rw [this, parseUnits_nil _ (Nat.succ_le_succ (Nat.zero_le _))]
  simp

/-- A size field declaring more payload than remains makes the parser
raise the truncation error. -/
theorem parseUnits_overrun (L S : Nat) (tail : List Nat)
    (hS : S < 256 ^ L) (ht : tail.length < S) :
    parseUnits L (toBytesBE L S ++ tail) = .error (.valueError "Truncated unit") := by
  have hsb : (toBytesBE L S).length = L := length_toBytesBE L S
  have htake : (toBytesBE L S ++ tail).take L = toBytesBE L S := by
    have h0 := List.take_left (toBytesBE L S) tail
    rw [hsb] at h0
    exact h0
  have hdrop : (toBytesBE L S ++ tail).drop L = tail := by
    have h0 := List.drop_left (toBytesBE L S) tail
    rw [hsb] at h0
    exact h0
  have hlen1 : ¬ (toBytesBE L S ++ tail).length < L := by
    rw [List.length_append, hsb]
    omega
  rw [parseUnits, dif_neg hlen1]
  simp only [htake, hdrop, fromBytesBE_toBytesBE _ _ hS]
  rw [dif_pos ht]

/-! ## Claims C1–C3 -/

/-- C1: for every well-formed track byte stream (a header byte followed by
complete length-prefixed units), concatenating the stream's leading header
byte with the `fullUnitBytes` of every unit yielded by `parse_v3c_units`,
in yielded order, reproduces the original byte stream exactly. -/
theorem parse_combine_roundtrip (h : Nat) (ps : List (List Nat))
    (hb : h < 256) (hwf : WFUnits ((h >>> 5) + 1) ps) :
    ∃ us, parse_v3c_units (v3cStream h ps) = .ok us ∧
      h :: (us.map Prod.snd).flatten = v3cStream h ps := by
  refine ⟨v3cUnits ((h >>> 5) + 1) ps, ?_, ?_⟩
  · exact parse_v3c_units_stream h ps (fun p hp => ⟨(hwf p hp).1, (hwf p hp).2.1⟩)
  · simp [v3cUnits, v3cStream, List.map_map]
    rfl

/-- Witness for C1 at the concrete stream `[0x00, 0x01, 0x08]`
(header `0x00`, so `L = 1`, one unit of size 1 with payload `[0x08]`). -/
theorem parse_combine_roundtrip_witness :
    ∃ us, parse_v3c_units (v3cStream 0 [[8]]) = .ok us ∧
      0 :: (us.map Prod.snd).flatten = v3cStream 0 [[8]] := by
  refine parse_combine_roundtrip 0 [[8]] (by norm_num) ?_
  intro p hp
  simp only [List.mem_singleton] at hp
  subst hp
  refine ⟨by simp, by norm_num, ?_⟩
  intro b hb
  simp only [List.mem_singleton] at hb
  omega

/-- C3: the empty input stream yields the empty unit sequence rather than
an error; and on a non-empty well-formed stream the parser reads the
size-field width `L` as (top 3 bits of the header byte) + 1, reads each
unit length as `L` big-endian bytes, and yields for each unit the pair
`(unitType, fullUnitBytes)` where `fullUnitBytes` includes the `L`-byte
size prefix and `unitType` is bits 3–7 of the first payload byte
(`v3cUnits` is exactly that list of pairs). -/
theorem parse_v3c_units_spec :
    parse_v3c_units [] = .ok [] ∧
    ∀ h ps, h < 256 → WFUnits ((h >>> 5) + 1) ps →
      parse_v3c_units (v3cStream h ps) = .ok (v3cUnits ((h >>> 5) + 1) ps) := by
  refine ⟨rfl, ?_⟩
  intro h ps _ hwf
  exact parse_v3c_units_stream h ps (fun p hp => ⟨(hwf p hp).1, (hwf p hp).2.1⟩)

/-- Witness for C3: a stream with header `0x00` and two units. -/
theorem parse_v3c_units_spec_witness :
    parse_v3c_units (v3cStream 0 [[8], [16, 7]])
      = .ok (v3cUnits 1 [[8], [16, 7]]) := by
  have h := parse_v3c_units_spec.2 0 [[8], [16, 7]] (by norm_num) ?_
  · exact h
  · intro p hp
    simp only [List.mem_cons, List.mem_singleton, List.not_mem_nil, or_false] at hp
    rcases hp with rfl | rfl
    · exact ⟨by simp, by norm_num, by intro b hb; simp at hb; omega⟩
    · refine ⟨by simp, by norm_num, ?_⟩
      intro b hb
      simp only [List.mem_cons, List.not_mem_nil, or_false, List.mem_singleton] at hb
      rcases hb with rfl | rfl <;> norm_num

/-- C2 counterexample: header `0x20` makes `L = 2`, and a single trailing
byte leaves fewer than `L` bytes for a size field, yet `parse_v3c_units`
succeeds with no further unit instead of failing with an error. -/
theorem parse_short_size_field_no_error :
    parse_v3c_units [32, 0] = .ok [] ∧
    ∀ e, parse_v3c_units [32, 0] ≠ .error e := by
  have h : parse_v3c_units [32, 0] = .ok [] := by
    show parseUnits 2 [0] = .ok []
    exact parseUnits_short 2 [0] (by norm_num)
  refine ⟨h, fun e he => ?_⟩
  rw [h] at he
  exact Except.noConfusion he

/-- C2 amended: the parser raises the truncation `ValueError` exactly when
a unit's declared size extends past the end of the stream; when fewer than
`L` bytes remain for a size field it stops silently, returning the units
parsed so far; and the spec's scenario (header `0x00`, declared size 5,
3 bytes remaining) does raise the truncation error. -/
theorem parse_truncation_amended :
    (∀ h ps S tail, WFUnits ((h >>> 5) + 1) ps → S < 256 ^ ((h >>> 5) + 1) →
        tail.length < S →
        parse_v3c_units (v3cStream h ps ++ (toBytesBE ((h >>> 5) + 1) S ++ tail))
          = .error (.valueError "Truncated unit")) ∧
    (∀ h ps tail, WFUnits ((h >>> 5) + 1) ps → tail.length < (h >>> 5) + 1 →
        parse_v3c_units (v3cStream h ps ++ tail)
          = .ok (v3cUnits ((h >>> 5) + 1) ps)) ∧
    (∀ a b c : Nat,
        parse_v3c_units [0, 5, a, b, c] = .error (.valueError "Truncated unit")) := by
  refine ⟨?_, ?_, ?_⟩
  · intro h ps S tail hwf hS ht
    show parseUnits ((h >>> 5) + 1)
        ((ps.map (encodeUnit ((h >>> 5) + 1))).flatten
          ++ (toBytesBE ((h >>> 5) + 1) S ++ tail)) = _
    rw [parseUnits_flatten _ ps _ (fun p hp => ⟨(hwf p hp).1, (hwf p hp).2.1⟩)]
    rw [parseUnits_overrun _ S tail hS ht]
  · intro h ps tail hwf ht
    show parseUnits ((h >>> 5) + 1)
        ((ps.map (encodeUnit ((h >>> 5) + 1))).flatten ++ tail) = _
    rw [parseUnits_flatten _ ps _ (fun p hp => ⟨(hwf p hp).1, (hwf p hp).2.1⟩)]
    rw [parseUnits_short _ tail ht]
    simp
  · intro a b c
    show parseUnits 1 (toBytesBE 1 5 ++ [a, b, c]) = _
    exact parseUnits_overrun 1 5 [a, b, c] (by norm_num) (by norm_num)

/-- Witness for C2's amended statement: concrete instances of all three
conjuncts. -/
theorem parse_truncation_amended_witness :
    parse_v3c_units (v3cStream 0 [[8]] ++ (toBytesBE 1 5 ++ [1, 2]))
      = .error (.valueError "Truncated unit") ∧
    parse_v3c_units (v3cStream 32 [] ++ [7]) = .ok (v3cUnits 2 []) ∧
    parse_v3c_units [0, 5, 1, 2, 3] = .error (.valueError "Truncated unit") := by
  have hwf1 : WFUnits ((0 >>> 5) + 1) [[8]] := by
    intro p hp
    simp only [List.mem_singleton] at hp
    subst hp
    exact ⟨by simp, by norm_num, by intro b hb; simp at hb; omega⟩
  have hwf2 : WFUnits ((32 >>> 5) + 1) [] := by
    intro p hp
    exact absurd hp (List.not_mem_nil p)
  exact ⟨parse_truncation_amended.1 0 [[8]] 5 [1, 2] hwf1 (by norm_num) (by norm_num),
    parse_truncation_amended.2.1 32 [] [7] hwf2 (by decide),
    parse_truncation_amended.2.2 1 2 3⟩

/-! ## Segment multiplexer (`multiplexer.py`, `combine_per_segment`) -/

/-- Python list indexing `xs[i]`: the element, or an `IndexError`. -/
def pyIndex (xs : List α) (i : Nat) : Except PyError α :=
  match xs[i]? with
  | some x => .ok x
  | none => .error .indexError

/-- The body of `combine_per_segment`'s loop for one segment index:
read the four track files, parse each into its unit list, pick the
positional units (`atlas_units[0]`, `atlas_units[1]`, `occp_units[1]`,
`geom_units[1]`, `attr_units[1]`), reuse the atlas header byte, and
produce the combined output bytes
`[header] + vps + ad + ovd + gvd + avd`. -/
def combineSegment (atlas_data occp_data geom_data attr_data : List Nat) :
    Except PyError (List Nat) := do
  let atlas_units ← parse_v3c_units atlas_data
  let occp_units ← parse_v3c_units occp_data
  let geom_units ← parse_v3c_units geom_data
  let attr_units ← parse_v3c_units attr_data
  let vps := (← pyIndex atlas_units 0).2
  let ad := (← pyIndex atlas_units 1).2
  let ovd := (← pyIndex occp_units 1).2
  let gvd := (← pyIndex geom_units 1).2
  let avd := (← pyIndex attr_units 1).2
  let header_byte ← pyIndex atlas_data 0
  pure (header_byte :: (vps ++ ad ++ ovd ++ gvd ++ avd))

/-- Outcome of a `combine_per_segment` run: the output files written so
far (in segment order) and the exception that stopped the run, if any. -/
structure CombineResult where
  written : List (List Nat)
  error : Option PyError
deriving DecidableEq, Repr

/-- The `for i in range(n)` loop of `combine_per_segment`: each
successfully combined segment is written before the next is processed,
and an exception aborts the loop leaving earlier outputs in place. -/
def combineLoop : List (List Nat) → List (List Nat) → List (List Nat) →
    List (List Nat) → CombineResult
  | a :: as, o :: os, g :: gs, t :: ts =>
    match combineSegment a o g t with
    | .error e => ⟨[], some e⟩
    | .ok out =>
      let r := combineLoop as os gs ts
      ⟨out :: r.written, r.error⟩
  | _, _, _, _ => ⟨[], none⟩

/-- `combine_per_segment` from `multiplexer.py`, over the four sorted
per-track segment-file byte lists: the segment-count check is performed
first, before any file is read, parsed or written. -/
def combine_per_segment (atlas occp geom attr : List (List Nat)) : CombineResult :=
  if ¬(atlas.length = occp.length ∧ occp.length = geom.length
      ∧ geom.length = attr.length) then
    ⟨[], some (.runtimeError "Segment count mismatch across tracks")⟩
  else
    combineLoop atlas occp geom attr

/-- The raw bytes of unit number `k` in a parsed unit list. -/
def unitAt (us : List (Nat × List Nat)) (k : Nat) : List Nat :=
  (us.getD k (0, [])).2

theorem pyIndex_eq_ok {α : Type} (xs : List α) (i : Nat) (d : α)
    (h : i < xs.length) : pyIndex xs i = .ok (xs.getD i d) := by
  simp [pyIndex, List.getElem?_eq_getElem h, List.getD_eq_getElem?_getD,
    List.getElem?_eq_getElem h]

theorem except_bind_ok {ε α β : Type} (a : α) (f : α → Except ε β) :
    (bind (Except.ok a) f : Except ε β) = f a := rfl

theorem parse_ok_ne_nil (a : List Nat) (au : List (Nat × List Nat))
    (ha : parse_v3c_units a = .ok au) (hne : au ≠ []) : a ≠ [] := by
  intro h0
  subst h0
  rw [show parse_v3c_units [] = .ok [] from rfl] at ha
  injection ha with h1
  exact hne h1.symm

/-- Evaluating one loop iteration when all four parses succeed with at
least two units each. -/
theorem combineSegment_ok (a o g t : List Nat) (au ou gu tu : List (Nat × List Nat))
    (ha : parse_v3c_units a = .ok au) (h2a : 2 ≤ au.length)
    (ho : parse_v3c_units o = .ok ou) (h2o : 2 ≤ ou.length)
    (hg : parse_v3c_units g = .ok gu) (h2g : 2 ≤ gu.length)
    (ht : parse_v3c_units t = .ok tu) (h2t : 2 ≤ tu.length) :
    combineSegment a o g t
      = .ok (a.headI :: (unitAt au 0 ++ unitAt au 1 ++ unitAt ou 1
          ++ unitAt gu 1 ++ unitAt tu 1)) := by
  have p1 : pyIndex au 0 = .ok (au.getD 0 (0, [])) := pyIndex_eq_ok _ _ _ (by omega)
  have p2 : pyIndex au 1 = .ok (au.getD 1 (0, [])) := pyIndex_eq_ok _ _ _ (by omega)
  have p3 : pyIndex ou 1 = .ok (ou.getD 1 (0, [])) := pyIndex_eq_ok _ _ _ (by omega)
  have p4 : pyIndex gu 1 = .ok (gu.getD 1 (0, [])) := pyIndex_eq_ok _ _ _ (by omega)
  have p5 : pyIndex tu 1 = .ok (tu.getD 1 (0, [])) := pyIndex_eq_ok _ _ _ (by omega)
  have hane : a ≠ [] := parse_ok_ne_nil a au ha (by intro h0; subst h0; simp at h2a)
  obtain ⟨x, xs, rfl⟩ := List.exists_cons_of_ne_nil hane
  have p6 : pyIndex (x :: xs) 0 = .ok x := by simp [pyIndex]
  simp only [combineSegment, ha, ho, hg, ht, except_bind_ok]
  simp only [p1, p2, p3, p4, p5, p6, except_bind_ok]
  simp [unitAt, pure, Except.pure]

/-- If every segment combines successfully, the loop writes one output
per segment, in order, and finishes without error. -/
theorem combineLoop_spec (atlas occp geom attr : List (List Nat))
    (hl1 : occp.length = atlas.length) (hl2 : geom.length = atlas.length)
    (hl3 : attr.length = atlas.length)
    (hok : ∀ i, i < atlas.length → ∃ out,
      combineSegment (atlas.getD i []) (occp.getD i []) (geom.getD i [])
        (attr.getD i []) = .ok out) :
    (combineLoop atlas occp geom attr).error = none ∧
    (combineLoop atlas occp geom attr).written.length = atlas.length ∧
    ∀ i, i < atlas.length →
      combineSegment (atlas.getD i []) (occp.getD i []) (geom.getD i [])
        (attr.getD i [])
        = .ok ((combineLoop atlas occp geom attr).written.getD i []) := by
  induction atlas generalizing occp geom attr with
  | nil =>
    cases occp <;> cases geom <;> cases attr <;>
      exact ⟨rfl, rfl, fun i hi => absurd hi (by simp)⟩
  | cons a as ih =>
    cases occp with
    | nil => simp at hl1
    | cons o os =>
    cases geom with
    | nil => simp at hl2
    | cons g gs =>
    cases attr with
    | nil => simp at hl3
    | cons t ts =>
    obtain ⟨out, hout⟩ := hok 0 (by simp)
    simp only [List.getD_cons_zero] at hout
    have ih' := ih os gs ts (by simpa using hl1) (by simpa using hl2)
      (by simpa using hl3)
      (fun i hi => by
        have h := hok (i + 1) (by simpa using Nat.succ_lt_succ hi)
        simpa [List.getD_cons_succ] using h)
    have hloop : combineLoop (a :: as) (o :: os) (g :: gs) (t :: ts)
        = ⟨out :: (combineLoop as os gs ts).written,
           (combineLoop as os gs ts).error⟩ := by
      rw [combineLoop, hout]
    refine ⟨?_, ?_, ?_⟩
    · rw [hloop]
      exact ih'.1
    · rw [hloop]
      simp [ih'.2.1]
    · intro i hi
      match i with
      | 0 =>
        rw [hloop]
        simpa using hout
      | Nat.succ j =>
        rw [hloop]
        simp only [List.getD_cons_succ]
        exact ih'.2.2 j (by simpa using hi)

/-! ## Claims C4, C5, C10 -/

/-- C5: if the four per-track segment-file lists have unequal lengths,
`combine_per_segment` fails with the RuntimeError-class
segment-count-mismatch error as its first check, before any segment is
read, parsed or written (no output is produced). -/
theorem combine_segment_count_mismatch (atlas occp geom attr : List (List Nat))
    (hne : ¬(atlas.length = occp.length ∧ occp.length = geom.length
      ∧ geom.length = attr.length)) :
    combine_per_segment atlas occp geom attr
      = ⟨[], some (.runtimeError "Segment count mismatch across tracks")⟩ := by
  rw [combine_per_segment, if_pos hne]

/-- Witness for C5 at track lists of lengths `(3, 3, 3, 2)`. -/
theorem combine_segment_count_mismatch_witness :
    combine_per_segment [[0], [0], [0]] [[0], [0], [0]] [[0], [0], [0]] [[0], [0]]
      = ⟨[], some (.runtimeError "Segment count mismatch across tracks")⟩ :=
  combine_segment_count_mismatch _ _ _ _ (by simp)

/-- C4: for every segment index processed, the combined output bytes are
exactly the concatenation, in this fixed order, of the atlas track's
leading header byte, the atlas track's first and second parsed units
(VPS, AD) and the second parsed unit of the occupancy, geometry and
attribute tracks (OVD, GVD, AVD), each unit verbatim including its own
size prefix, with one output per segment index. -/
theorem combine_per_segment_fixed_order (atlas occp geom attr : List (List Nat))
    (h1 : atlas.length = occp.length) (h2 : occp.length = geom.length)
    (h3 : geom.length = attr.length)
    (hok : ∀ i, i < atlas.length → ∃ au ou gu tu,
      parse_v3c_units (atlas.getD i []) = .ok au ∧ 2 ≤ au.length ∧
      parse_v3c_units (occp.getD i []) = .ok ou ∧ 2 ≤ ou.length ∧
      parse_v3c_units (geom.getD i []) = .ok gu ∧ 2 ≤ gu.length ∧
      parse_v3c_units (attr.getD i []) = .ok tu ∧ 2 ≤ tu.length) :
    (combine_per_segment atlas occp geom attr).error = none ∧
    (combine_per_segment atlas occp geom attr).written.length = atlas.length ∧
    ∀ i, i < atlas.length → ∀ au ou gu tu,
      parse_v3c_units (atlas.getD i []) = .ok au →
      parse_v3c_units (occp.getD i []) = .ok ou →
      parse_v3c_units (geom.getD i []) = .ok gu →
      parse_v3c_units (attr.getD i []) = .ok tu →
      (combine_per_segment atlas occp geom attr).written.getD i []
        = (atlas.getD i []).headI
          :: (unitAt au 0 ++ unitAt au 1 ++ unitAt ou 1
              ++ unitAt gu 1 ++ unitAt tu 1) := by
  have heq : combine_per_segment atlas occp geom attr
      = combineLoop atlas occp geom attr := by
    rw [combine_per_segment, if_neg (not_not_intro ⟨h1, h2, h3⟩)]
  have hok' : ∀ i, i < atlas.length → ∃ out,
      combineSegment (atlas.getD i []) (occp.getD i []) (geom.getD i [])
        (attr.getD i []) = .ok out := by
    intro i hi
    obtain ⟨au, ou, gu, tu, ha, h2a, ho, h2o, hg, h2g, ht, h2t⟩ := hok i hi
    exact ⟨_, combineSegment_ok _ _ _ _ au ou gu tu ha h2a ho h2o hg h2g ht h2t⟩
  have hspec := combineLoop_spec atlas occp geom attr h1.symm (h1.trans h2).symm
    ((h1.trans h2).trans h3).symm hok'
  refine ⟨heq ▸ hspec.1, heq ▸ hspec.2.1, ?_⟩
  intro i hi au ou gu tu ha ho hg ht
  obtain ⟨au', ou', gu', tu', ha', h2a, ho', h2o, hg', h2g, ht', h2t⟩ := hok i hi
  have e1 : au' = au := by rw [ha] at ha'; injection ha' with h; exact h.symm
  have e2 : ou' = ou := by rw [ho] at ho'; injection ho' with h; exact h.symm
  have e3 : gu' = gu := by rw [hg] at hg'; injection hg' with h; exact h.symm
  have e4 : tu' = tu := by rw [ht] at ht'; injection ht' with h; exact h.symm
  rw [e1] at h2a
  rw [e2] at h2o
  rw [e3] at h2g
  rw [e4] at h2t
  have hcs := combineSegment_ok _ _ _ _ au ou gu tu ha h2a ho h2o hg h2g ht h2t
  have := hspec.2.2 i hi
  rw [hcs] at this
  injection this with h
  rw [heq]
  exact h.symm

/-- Witness for C4: one segment whose tracks carry units of the expected
types (0=VPS, 1=AD, 2=OVD, 3=GVD, 4=AVD in bits 3–7). -/
theorem combine_per_segment_fixed_order_witness :
    (combine_per_segment [v3cStream 0 [[0], [8]]] [v3cStream 0 [[0], [16]]]
      [v3cStream 0 [[0], [24]]] [v3cStream 0 [[0], [32]]]).error = none ∧
    (combine_per_segment [v3cStream 0 [[0], [8]]] [v3cStream 0 [[0], [16]]]
      [v3cStream 0 [[0], [24]]] [v3cStream 0 [[0], [32]]]).written.length = 1 := by
  have h := combine_per_segment_fixed_order
    [v3cStream 0 [[0], [8]]] [v3cStream 0 [[0], [16]]]
    [v3cStream 0 [[0], [24]]] [v3cStream 0 [[0], [32]]]
    rfl rfl rfl ?_
  · exact ⟨h.1, h.2.1.trans rfl⟩
  · intro i hi
    have hi0 : i = 0 := by simpa using hi
    subst hi0
    refine ⟨v3cUnits 1 [[0], [8]], v3cUnits 1 [[0], [16]],
      v3cUnits 1 [[0], [24]], v3cUnits 1 [[0], [32]],
      parse_v3c_units_stream 0 [[0], [8]] (by decide), by decide,
      parse_v3c_units_stream 0 [[0], [16]] (by decide), by decide,
      parse_v3c_units_stream 0 [[0], [24]] (by decide), by decide,
      parse_v3c_units_stream 0 [[0], [32]] (by decide), by decide⟩

/-- C10 (implicit): the multiplexer selects units purely by position and
never validates the decoded unit types: whenever every per-segment track
file parses to at least two units, `combine_per_segment` succeeds and the
output for each segment is the positional concatenation (atlas units 0
and 1, and unit 1 of the occupancy, geometry and attribute tracks),
whatever unit-type values those units' payloads carry. -/
theorem combine_per_segment_positional (atlas occp geom attr : List (List Nat))
    (h1 : atlas.length = occp.length) (h2 : occp.length = geom.length)
    (h3 : geom.length = attr.length)
    (hok : ∀ i, i < atlas.length → ∃ au ou gu tu,
      parse_v3c_units (atlas.getD i []) = .ok au ∧ 2 ≤ au.length ∧
      parse_v3c_units (occp.getD i []) = .ok ou ∧ 2 ≤ ou.length ∧
      parse_v3c_units (geom.getD i []) = .ok gu ∧ 2 ≤ gu.length ∧
      parse_v3c_units (attr.getD i []) = .ok tu ∧ 2 ≤ tu.length) :
    (combine_per_segment atlas occp geom attr).error = none ∧
    ∀ i, i < atlas.length →
      combineSegment (atlas.getD i []) (occp.getD i []) (geom.getD i [])
        (attr.getD i [])
        = .ok ((combine_per_segment atlas occp geom attr).written.getD i []) := by
  have heq : combine_per_segment atlas occp geom attr
      = combineLoop atlas occp geom attr := by
    rw [combine_per_segment, if_neg (not_not_intro ⟨h1, h2, h3⟩)]
  have hok' : ∀ i, i < atlas.length → ∃ out,
      combineSegment (atlas.getD i []) (occp.getD i []) (geom.getD i [])
        (attr.getD i []) = .ok out := by
    intro i hi
    obtain ⟨au, ou, gu, tu, ha, h2a, ho, h2o, hg, h2g, ht, h2t⟩ := hok i hi
    exact ⟨_, combineSegment_ok _ _ _ _ au ou gu tu ha h2a ho h2o hg h2g ht h2t⟩
  have hspec := combineLoop_spec atlas occp geom attr h1.symm (h1.trans h2).symm
    ((h1.trans h2).trans h3).symm hok'
  exact ⟨heq ▸ hspec.1, fun i hi => heq ▸ hspec.2.2 i hi⟩

/-- Witness for C10: every unit carries type 31 (payload byte `0xFF`) —
none of the expected types VPS/AD/OVD/GVD/AVD — yet combining succeeds. -/
theorem combine_per_segment_positional_witness :
    (combine_per_segment [v3cStream 0 [[255], [255]]] [v3cStream 0 [[255], [255]]]
      [v3cStream 0 [[255], [255]]] [v3cStream 0 [[255], [255]]]).error = none := by
  have h := combine_per_segment_positional
    [v3cStream 0 [[255], [255]]] [v3cStream 0 [[255], [255]]]
    [v3cStream 0 [[255], [255]]] [v3cStream 0 [[255], [255]]]
    rfl rfl rfl ?_
  · exact h.1
  · intro i hi
    have hi0 : i = 0 := by simpa using hi
    subst hi0
    exact ⟨v3cUnits 1 [[255], [255]], v3cUnits 1 [[255], [255]],
      v3cUnits 1 [[255], [255]], v3cUnits 1 [[255], [255]],
      parse_v3c_units_stream 0 [[255], [255]] (by decide), by decide,
      parse_v3c_units_stream 0 [[255], [255]] (by decide), by decide,
      parse_v3c_units_stream 0 [[255], [255]] (by decide), by decide,
      parse_v3c_units_stream 0 [[255], [255]] (by decide), by decide⟩

/-! ## Spatial partitioner (`src/tile_generator.py`, `_process_frame`) -/

/-- The per-segment boundary metadata dictionary `boundaries_meta`. -/
structure BoundariesMeta where
  x_min : ℚ
  y_min : ℚ
  z_min : ℚ
  dx : ℚ
  dy : ℚ
  dz : ℚ
  nx : ℕ
  ny : ℕ
  nz : ℕ
deriving DecidableEq, Repr

/-- One axis of the tile assignment in `_process_frame`:
`np.clip(np.floor((v - v_min) / d).astype(int), 0, n - 1)`. -/
def cellIdx (v v_min d : ℚ) (n : ℕ) : ℤ :=
  min (max ⌊(v - v_min) / d⌋ 0) ((n : ℤ) - 1)

/-- `tile_ids = ix * (ny * nz) + iy * nz + iz` from `_process_frame`. -/
def tileId (b : BoundariesMeta) (x y z : ℚ) : ℤ :=
  cellIdx x b.x_min b.dx b.nx * ((b.ny : ℤ) * (b.nz : ℤ))
    + cellIdx y b.y_min b.dy b.ny * (b.nz : ℤ) + cellIdx z b.z_min b.dz b.nz

/-- The per-axis cell size from `_compute_segment_boundaries`:
`dx = max((x_max - x_min) / n_x, 1e-9)`. -/
def cellSize (vmax vmin : ℚ) (n : ℕ) : ℚ :=
  max ((vmax - vmin) / n) (1 / 10 ^ 9)

/-- The boundary of the spec's 2×1×1 scenario: a frame with points at
x = 0 and x = 10 and degenerate y/z extents. -/
def scenarioBoundary : BoundariesMeta :=
  { x_min := 0, y_min := 0, z_min := 0,
    dx := cellSize 10 0 2, dy := cellSize 0 0 1, dz := cellSize 0 0 1,
    nx := 2, ny := 1, nz := 1 }

/-- C6: for every point and every boundary with at least one cell per
axis, the clamped cell indices satisfy `0 ≤ ix < nx`, `0 ≤ iy < ny`,
`0 ≤ iz < nz` — also for points outside the raw bounding box — and the
assigned tile id is `ix * (ny * nz) + iy * nz + iz`; and in the 2×1×1
scenario with x-boundary `[0, 10]`, points with `x < 5` get tile 0 and
points with `5 ≤ x` get tile 1. -/
theorem tile_index_bounds :
    (∀ (b : BoundariesMeta) (x y z : ℚ),
      1 ≤ b.nx → 1 ≤ b.ny → 1 ≤ b.nz →
      (0 ≤ cellIdx x b.x_min b.dx b.nx ∧ cellIdx x b.x_min b.dx b.nx < (b.nx : ℤ)) ∧
      (0 ≤ cellIdx y b.y_min b.dy b.ny ∧ cellIdx y b.y_min b.dy b.ny < (b.ny : ℤ)) ∧
      (0 ≤ cellIdx z b.z_min b.dz b.nz ∧ cellIdx z b.z_min b.dz b.nz < (b.nz : ℤ)) ∧
      tileId b x y z = cellIdx x b.x_min b.dx b.nx * ((b.ny : ℤ) * (b.nz : ℤ))
        + cellIdx y b.y_min b.dy b.ny * (b.nz : ℤ) + cellIdx z b.z_min b.dz b.nz) ∧
    (∀ x y z : ℚ,
      (x < 5 → tileId scenarioBoundary x y z = 0) ∧
      (5 ≤ x → tileId scenarioBoundary x y z = 1)) := by
  have hax : ∀ (v vmin d : ℚ) (n : ℕ), 1 ≤ n →
      0 ≤ cellIdx v vmin d n ∧ cellIdx v vmin d n < (n : ℤ) := by
    intro v vmin d n hn
    constructor
    · apply le_min
      · exact le_max_right _ _
      · have : (1 : ℤ) ≤ (n : ℤ) := by exact_mod_cast hn
        omega
    · apply lt_of_le_of_lt (min_le_right _ _)
      omega
  constructor
  · intro b x y z hnx hny hnz
    exact ⟨hax x b.x_min b.dx b.nx hnx, hax y b.y_min b.dy b.ny hny,
      hax z b.z_min b.dz b.nz hnz, rfl⟩
  · have hdx : scenarioBoundary.dx = 5 := by
      show cellSize 10 0 2 = 5
      rw [cellSize]
      norm_num
    have hyz : ∀ (v vmin d : ℚ), cellIdx v vmin d 1 = 0 := by
      intro v vmin d
      rw [cellIdx]
      have h1 : (0 : ℤ) ≤ max ⌊(v - vmin) / d⌋ 0 := le_max_right _ _
      omega
    intro x y z
    have hyc : cellIdx y scenarioBoundary.y_min scenarioBoundary.dy scenarioBoundary.ny
        = 0 := hyz _ _ _
    have hzc : cellIdx z scenarioBoundary.z_min scenarioBoundary.dz scenarioBoundary.nz
        = 0 := hyz _ _ _
    constructor
    · intro hx
      have hfl : ⌊(x - scenarioBoundary.x_min) / scenarioBoundary.dx⌋ ≤ 0 := by
        rw [hdx, show scenarioBoundary.x_min = 0 from rfl]
        have h1 : (x - 0) / 5 < 1 := by
          rw [div_lt_one (by norm_num)]
          linarith
        have := Int.floor_lt.mpr (by exact_mod_cast h1 :
          (x - 0) / 5 < ((1 : ℤ) : ℚ))
        omega
      have hix : cellIdx x scenarioBoundary.x_min scenarioBoundary.dx
          scenarioBoundary.nx = 0 := by
        rw [cellIdx]
        have hnx : (scenarioBoundary.nx : ℤ) = 2 := rfl
        omega
      rw [tileId, hyc, hzc, hix]
      norm_num
    · intro hx
      have hfl : 1 ≤ ⌊(x - scenarioBoundary.x_min) / scenarioBoundary.dx⌋ := by
        rw [hdx, show scenarioBoundary.x_min = 0 from rfl]
        apply Int.le_floor.mpr
        rw [le_div_iff₀ (by norm_num : (0 : ℚ) < 5)]
        push_cast
        linarith
      have hix : cellIdx x scenarioBoundary.x_min scenarioBoundary.dx
          scenarioBoundary.nx = 1 := by
        rw [cellIdx]
        have hnx : (scenarioBoundary.nx : ℤ) = 2 := rfl
        omega
      rw [tileId, hyc, hzc, hix]
      norm_num [scenarioBoundary]

/-- Witness for C6: concrete boundary `[0,10]` on a 2×1×1 grid, and the
concrete points x = 0 (tile 0) and x = 10 (tile 1). -/
theorem tile_index_bounds_witness :
    (0 ≤ cellIdx 0 scenarioBoundary.x_min scenarioBoundary.dx scenarioBoundary.nx ∧
      cellIdx 0 scenarioBoundary.x_min scenarioBoundary.dx scenarioBoundary.nx
        < (scenarioBoundary.nx : ℤ)) ∧
    tileId scenarioBoundary 0 0 0 = 0 ∧ tileId scenarioBoundary 10 0 0 = 1 :=
  ⟨(tile_index_bounds.1 scenarioBoundary 0 0 0 (by decide) (by decide)
      (by decide)).1,
    (tile_index_bounds.2 0 0 0).1 (by norm_num),
    (tile_index_bounds.2 10 0 0).2 (by norm_num)⟩

/-! ## Tile content and PLY record IO
(`src/tile_generator.py` `_process_frame`, `src/tile_io.py` `PlyIO`) -/

/-- A pandas DataFrame at record level: named columns and data rows. -/
structure DataFrame where
  cols : List String
  rows : List (List ℚ)
deriving DecidableEq, Repr

/-- `row[df.columns.indexOf(c)]`: the entry of the (first) column named
`c` in one row. -/
def rowVal (cols : List String) (row : List ℚ) (c : String) : ℚ :=
  row.getD (cols.indexOf c) 0

/-- The tile id `_process_frame` computes for one row from its x/y/z
columns. -/
def rowTileId (b : BoundariesMeta) (cols : List String) (row : List ℚ) : ℤ :=
  tileId b (rowVal cols row "x") (rowVal cols row "y") (rowVal cols row "z")

/-- The placeholder point built for an empty tile (`dummy_vals`): the
centroid coordinate in the x/y/z columns, `0` in every other column. -/
def dummyRow (cols : List String) (cx cy cz : ℚ) : List ℚ :=
  cols.map fun c =>
    if c = "x" then cx else if c = "y" then cy else if c = "z" then cz else 0

/-- `tile_df` for tile `t` of one frame in `_process_frame`: the frame's
rows whose tile id matches `t`, or the single placeholder row when that
subset is empty. -/
def tileFrame (df : DataFrame) (b : BoundariesMeta) (t : ℤ)
    (cx cy cz : ℚ) : DataFrame :=
  let sel := df.rows.filter (fun r => decide (rowTileId b df.cols r = t))
  if sel.isEmpty then ⟨df.cols, [dummyRow df.cols cx cy cz]⟩
  else ⟨df.cols, sel⟩

/-- `c.lower()`: the column name with its characters lower-cased. -/
def lowerName (c : String) : String := String.mk (c.data.map Char.toLower)

/-- Column names `PlyIO.write` treats as 8-bit colour channels
(`c.lower() in ["r", "g", "b", "red", "green", "blue"]`). -/
def isRgbCol (c : String) : Bool :=
  lowerName c ∈ ["r", "g", "b", "red", "green", "blue"]

/-- `astype(np.uint8)` on a nonnegative integral value. -/
def u8cast (q : ℚ) : ℚ := ((⌊q⌋.toNat % 256 : ℕ) : ℚ)

/-- The ascii PLY file `PlyIO.write` produces, at record level: the
format, one `(type, name)` property per column, the declared vertex
count, and the data rows. -/
structure PlyFile where
  fmt : String
  props : List (String × String)
  vertexCount : Nat
  rows : List (List ℚ)
deriving DecidableEq, Repr

/-- The colour-column `uint8` cast `PlyIO.write` applies to each row. -/
def castRow (cols : List String) (row : List ℚ) : List ℚ :=
  (cols.zip row).map fun cv => if isRgbCol cv.1 then u8cast cv.2 else cv.2

/-- `PlyIO.write`: an empty frame is replaced by the fixed placeholder
row `(-1, -1, -1, 0, 0, 0)`; colour columns are cast to `uint8` and
declared `uchar`, all other columns `float`; the header declares
`element vertex len(df)`. -/
def PlyIO_write (df : DataFrame) : PlyFile :=
  let wdf := if df.rows.isEmpty then
      ⟨["x", "y", "z", "r", "g", "b"], [[-1, -1, -1, 0, 0, 0]]⟩
    else df
  { fmt := "ascii"
    props := wdf.cols.map fun c => (if isRgbCol c then "uchar" else "float", c)
    vertexCount := wdf.rows.length
    rows := wdf.rows.map (castRow wdf.cols) }

/-- `PlyIO.read` on an ascii PLY file: the columns named by the header's
properties and `vertex_count` data rows. -/
def PlyIO_read (f : PlyFile) : DataFrame :=
  ⟨f.props.map Prod.snd, f.rows.take f.vertexCount⟩

theorem u8cast_zero : u8cast 0 = 0 := by
  simp [u8cast]

/-- The colour cast leaves the placeholder row unchanged: colour columns
hold `0` there, and `uint8(0) = 0`. -/
theorem castRow_dummyRow (cols : List String) (cx cy cz : ℚ) :
    castRow cols (dummyRow cols cx cy cz) = dummyRow cols cx cy cz := by
  induction cols with
  | nil => rfl
  | cons c cs ih =>
    simp only [dummyRow, List.map_cons, castRow, List.zip_cons_cons] at ih ⊢
    refine List.cons_eq_cons.mpr ⟨?_, ih⟩
    by_cases h1 : c = "x"
    · have : isRgbCol "x" = false := by decide
      simp [h1, this]
    · by_cases h2 : c = "y"
      · have : isRgbCol "y" = false := by decide
        simp [h1, h2, this]
      · by_cases h3 : c = "z"
        · have : isRgbCol "z" = false := by decide
          simp [h1, h2, h3, this]
        · by_cases h4 : isRgbCol c <;> simp [h1, h2, h3, h4, u8cast_zero]

theorem rowVal_map (cols : List String) (f : String → ℚ) (c : String)
    (hc : c ∈ cols) : rowVal cols (cols.map f) c = f c := by
  have hlt : cols.indexOf c < cols.length := List.indexOf_lt_length.mpr hc
  rw [rowVal, List.getD_eq_getElem?_getD,
    List.getElem?_eq_getElem (by simpa using hlt)]
  simp [List.getElem_map, List.getElem_indexOf hlt]

/-- C7: for a (frame, tile) pair in which no point of the frame falls in
that tile, the sub-frame written for the pair holds exactly one point,
located at the segment centroid `(cx, cy, cz)`, with every extra
(non-x/y/z) column set to zero — and reading the written tile back
yields exactly that one centroid point. -/
theorem empty_tile_placeholder (df : DataFrame) (b : BoundariesMeta)
    (t : ℤ) (cx cy cz : ℚ)
    (hempty : df.rows.filter (fun r => decide (rowTileId b df.cols r = t)) = []) :
    (PlyIO_write (tileFrame df b t cx cy cz)).vertexCount = 1 ∧
    (PlyIO_read (PlyIO_write (tileFrame df b t cx cy cz))).cols = df.cols ∧
    (PlyIO_read (PlyIO_write (tileFrame df b t cx cy cz))).rows
      = [dummyRow df.cols cx cy cz] ∧
    ("x" ∈ df.cols → rowVal df.cols (dummyRow df.cols cx cy cz) "x" = cx) ∧
    ("y" ∈ df.cols → rowVal df.cols (dummyRow df.cols cx cy cz) "y" = cy) ∧
    ("z" ∈ df.cols → rowVal df.cols (dummyRow df.cols cx cy cz) "z" = cz) ∧
    (∀ c ∈ df.cols, c ≠ "x" → c ≠ "y" → c ≠ "z" →
      rowVal df.cols (dummyRow df.cols cx cy cz) c = 0) := by
  have htf : tileFrame df b t cx cy cz = ⟨df.cols, [dummyRow df.cols cx cy cz]⟩ := by
    rw [tileFrame]
    simp [hempty]
  rw [htf]
  have hw : PlyIO_write ⟨df.cols, [dummyRow df.cols cx cy cz]⟩
      = { fmt := "ascii"
          props := df.cols.map fun c => (if isRgbCol c then "uchar" else "float", c)
          vertexCount := 1
          rows := [dummyRow df.cols cx cy cz] } := by
    rw [PlyIO_write]
    simp [castRow_dummyRow]
  rw [hw]
  refine ⟨rfl, ?_, rfl, ?_, ?_, ?_, ?_⟩
  · simp only [PlyIO_read, List.map_map]
    have hid : ∀ cs : List String, List.map
        (Prod.snd ∘ fun c =>
          ((if isRgbCol c = true then "uchar" else "float"), c)) cs = cs := by
      intro cs
      induction cs with
      | nil => rfl
      | cons c cs ih =>
        rw [List.map_cons, ih]
        rfl
    exact hid df.cols
  · intro hx
    rw [dummyRow, rowVal_map _ _ _ hx]
    simp
  · intro hy
    rw [dummyRow, rowVal_map _ _ _ hy]
    simp
  · intro hz
    rw [dummyRow, rowVal_map _ _ _ hz]
    simp
  · intro c hc h1 h2 h3
    rw [dummyRow, rowVal_map _ _ _ hc]
    simp [h1, h2, h3]

/-- Witness for C7: a frame with no rows at all, the 2×1×1 boundary,
tile 0, centroid `(1, 2, 3)`, with one colour column `red`. -/
theorem empty_tile_placeholder_witness :
    (PlyIO_read (PlyIO_write
        (tileFrame ⟨["x", "y", "z", "red"], []⟩ scenarioBoundary 0 1 2 3))).rows
      = [dummyRow ["x", "y", "z", "red"] 1 2 3] ∧
    rowVal ["x", "y", "z", "red"] (dummyRow ["x", "y", "z", "red"] 1 2 3) "x" = 1 ∧
    rowVal ["x", "y", "z", "red"] (dummyRow ["x", "y", "z", "red"] 1 2 3) "red" = 0 := by
  have h := empty_tile_placeholder ⟨["x", "y", "z", "red"], []⟩ scenarioBoundary
    0 1 2 3 rfl
  exact ⟨h.2.2.1, h.2.2.2.1 (by simp), h.2.2.2.2.2.2 "red" (by simp)
    (by simp) (by simp) (by simp)⟩

/-! ## Encode job planning (`src/encoder/tmc2_encoder.py`) -/

/-- An encoder parameter value (string pattern or integer). -/
inductive PVal
  | s (v : String)
  | n (v : Nat)
deriving DecidableEq, Repr

/-- Python `dict` lookup on an insertion-ordered association list. -/
def pget : List (String × PVal) → String → Option PVal
  | [], _ => none
  | e :: es, k => if e.1 = k then some e.2 else pget es k

/-- Python `d[k] = v`: replace the value of an existing key in place,
append a new key at the end. -/
def pset : List (String × PVal) → String → PVal → List (String × PVal)
  | [], k, v => [(k, v)]
  | e :: es, k, v => if e.1 = k then (k, v) :: es else e :: pset es k v

/-- Python `d.setdefault(k, v)`: insert only when the key is absent. -/
def psetdefault (ps : List (String × PVal)) (k : String) (v : PVal) :
    List (String × PVal) :=
  match pget ps k with
  | some _ => ps
  | none => ps ++ [(k, v)]

/-- `re.search(r"(.*?)(\d+)$", stem)`: split a stem into the part before
its trailing digit run and that (maximal) digit run, `none` when the stem
does not end in a digit. -/
def splitTrailing (s : String) : Option (String × String) :=
  let rev := s.data.reverse
  let dig := rev.takeWhile Char.isDigit
  if dig.isEmpty then none
  else some (String.mk ((rev.dropWhile Char.isDigit).reverse), String.mk dig.reverse)

/-- `int(...)` on a decimal digit string. -/
def digitsToNat (s : String) : Nat :=
  s.data.foldl (fun a c => a * 10 + (c.toNat - 48)) 0

/-- `_derive_frame_sequence` over the sorted stems of a tile directory's
`*.ply` files: infer `(pattern, start_frame, frame_count)` — the pattern
uses the first stem's prefix and the maximal digit width observed,
`start_frame` is the minimal index, `frame_count` the number of numbered
frames. -/
def derive_frame_sequence (stems : List String) :
    Except PyError (String × Nat × Nat) :=
  match stems with
  | [] => .error (.valueError "no .ply frames found")
  | first :: _ =>
    match splitTrailing first with
    | none => .error (.valueError "unable to infer numbering pattern")
    | some pd =>
      let matched := stems.filterMap splitTrailing
      let width := (matched.map (fun q => q.2.length)).foldl max pd.2.length
      let indices := matched.map (fun q => digitsToNat q.2)
      match indices with
      | [] => .error (.valueError "no numbered frames found in tile directory")
      | i0 :: irest =>
        .ok (pd.1 ++ "%0" ++ toString width ++ "d.ply",
          irest.foldl min i0, indices.length)

/-- The per-tile parameter dictionary of `encode_tiles_with_qp_pairs`:
`base_params.copy()`, then `nbThread` when a (truthy) thread count is
given, then `setdefault` of the three inferred values. -/
def tile_params (base : List (String × PVal)) (threads : Option Nat)
    (pat : String) (start count : Nat) : List (String × PVal) :=
  let tp := match threads with
    | some th => if th = 0 then base else pset base "nbThread" (.n th)
    | none => base
  let tp := psetdefault tp "uncompressedDataPath" (.s pat)
  let tp := psetdefault tp "startFrameNumber" (.n start)
  psetdefault tp "frameCount" (.n count)

/-- `_normalize_qp_pairs` on well-shaped triples: rejects an empty list. -/
def normalize_qp_pairs (qps : List (Nat × Nat × Nat)) :
    Except PyError (List (Nat × Nat × Nat)) :=
  if qps.isEmpty then .error (.valueError "qp_pairs cannot be empty")
  else .ok qps

/-- The `tile_infos` loop of `encode_tiles_with_qp_pairs`: each tile
directory (name, frame stems) yields `(dir, params)`; the first
inference failure aborts. -/
def plan_tile_infos (base : List (String × PVal)) (threads : Option Nat) :
    List (String × List String) →
    Except PyError (List (String × List (String × PVal)))
  | [] => .ok []
  | ti :: ts => do
    let r ← derive_frame_sequence ti.2
    let rest ← plan_tile_infos base threads ts
    pure ((ti.1, tile_params base threads r.1 r.2.1 r.2.2) :: rest)

/-- The task list: `for qp_idx, qp in enumerate(normalized_pairs): for
info in tile_infos: tasks.append(...)` — QP-major, tile-minor. -/
def buildTasks (infos : List (String × List (String × PVal)))
    (qps : List (Nat × Nat × Nat)) :
    List (Nat × String × List (String × PVal) × (Nat × Nat × Nat)) :=
  (qps.enum.map (fun iq => infos.map (fun info => (iq.1, info.1, info.2, iq.2)))).flatten

/-- The planning portion of `encode_tiles_with_qp_pairs`: normalise the
QP list, infer per-tile parameters, build the ordered job list. -/
def encode_tiles_with_qp_pairs_plan (tiles : List (String × List String))
    (qps : List (Nat × Nat × Nat)) (base : List (String × PVal))
    (threads : Option Nat) :
    Except PyError (List (Nat × String × List (String × PVal) × (Nat × Nat × Nat))) := do
  let npairs ← normalize_qp_pairs qps
  let infos ← plan_tile_infos base threads tiles
  pure (buildTasks infos npairs)

/-- `encode_task`'s parameter materialisation: the tile's parameters with
the job's three QP values assigned on top. -/
def encode_task_params (tileParams : List (String × PVal))
    (qp : Nat × Nat × Nat) : List (String × PVal) :=
  pset (pset (pset tileParams "occupancyMapQP" (.n qp.1))
    "geometryQP" (.n qp.2.1)) "attributeQP" (.n qp.2.2)

theorem except_bind_err {ε α β : Type} (e : ε) (f : α → Except ε β) :
    (bind (Except.error e) f : Except ε β) = .error e := rfl

theorem pget_pset_self (ps : List (String × PVal)) (k : String) (v : PVal) :
    pget (pset ps k v) k = some v := by
  induction ps with
  | nil => simp [pset, pget]
  | cons e es ih =>
    by_cases h : e.1 = k
    · simp [pset, pget, h]
    · simp [pset, pget, h, ih]

theorem pget_pset_ne (ps : List (String × PVal)) (k : String) (v : PVal)
    (k2 : String) (h : k2 ≠ k) : pget (pset ps k v) k2 = pget ps k2 := by
  induction ps with
  | nil =>
    simp only [pset, pget]
    rw [if_neg (fun he : k = k2 => h he.symm)]
  | cons e es ih =>
    by_cases he : e.1 = k
    · simp only [pset, if_pos he, pget]
      rw [if_neg (fun hx : k = k2 => h hx.symm),
        if_neg (fun hx : e.1 = k2 => h ((he.symm.trans hx)).symm)]
    · simp only [pset, if_neg he, pget]
      by_cases he2 : e.1 = k2
      · rw [if_pos he2, if_pos he2]
      · rw [if_neg he2, if_neg he2]
        exact ih

theorem pget_append (ps qs : List (String × PVal)) (k : String) :
    pget (ps ++ qs) k
      = match pget ps k with
        | some v => some v
        | none => pget qs k := by
  induction ps with
  | nil => simp [pget]
  | cons e es ih =>
    by_cases h : e.1 = k
    · simp [pget, h]
    · simp [pget, h, ih]

theorem pget_psetdefault_self (ps : List (String × PVal)) (k : String) (v : PVal) :
    pget (psetdefault ps k v) k = some ((pget ps k).getD v) := by
  rw [psetdefault]
  cases h : pget ps k with
  | some w => simp [h]
  | none =>
    simp only [h]
    rw [pget_append, h]
    simp [pget]

theorem pget_psetdefault_ne (ps : List (String × PVal)) (k : String) (v : PVal)
    (k2 : String) (h : k2 ≠ k) :
    pget (psetdefault ps k v) k2 = pget ps k2 := by
  rw [psetdefault]
  cases hk : pget ps k with
  | some w => rfl
  | none =>
    rw [pget_append]
    cases h2 : pget ps k2 with
    | some w => rfl
    | none =>
      show pget [(k, v)] k2 = none
      simp only [pget]
      rw [if_neg (fun he : k = k2 => h he.symm)]

/-- C9 counterexample: base parameters already containing `frameCount`
win over the per-tile inferred value.  With 10 inferred frames (count 10)
and `frameCount = 99` in the base parameters, the final parameter set
binds 99, not the inferred 10 — so the per-tile inferred (later) value is
not the one bound. -/
theorem encode_params_base_wins_cex :
    derive_frame_sequence ["f0000", "f0001", "f0002", "f0003", "f0004",
      "f0005", "f0006", "f0007", "f0008", "f0009"] = .ok ("f%04d.ply", 0, 10) ∧
    pget (encode_task_params
        (tile_params [("frameCount", PVal.n 99)] none "f%04d.ply" 0 10)
        (24, 32, 43)) "frameCount" = some (.n 99) ∧
    PVal.n 99 ≠ PVal.n 10 := by
  exact ⟨rfl, rfl, by decide⟩

/-- C9 amended: the final parameter set binds the job's QPConfig values
unconditionally, while for each of the three per-tile inferred keys
(`uncompressedDataPath`, `startFrameNumber`, `frameCount`) the base
parameters take precedence and the inferred value is used only when the
key is absent from the base (setdefault semantics — base wins, not the
later inferred value). -/
theorem encode_params_precedence (base : List (String × PVal))
    (threads : Option Nat) (pat : String) (start count occ geo attr : Nat) :
    pget (encode_task_params (tile_params base threads pat start count)
        (occ, geo, attr)) "occupancyMapQP" = some (.n occ) ∧
    pget (encode_task_params (tile_params base threads pat start count)
        (occ, geo, attr)) "geometryQP" = some (.n geo) ∧
    pget (encode_task_params (tile_params base threads pat start count)
        (occ, geo, attr)) "attributeQP" = some (.n attr) ∧
    pget (encode_task_params (tile_params base threads pat start count)
        (occ, geo, attr)) "uncompressedDataPath"
      = some ((pget base "uncompressedDataPath").getD (.s pat)) ∧
    pget (encode_task_params (tile_params base threads pat start count)
        (occ, geo, attr)) "startFrameNumber"
      = some ((pget base "startFrameNumber").getD (.n start)) ∧
    pget (encode_task_params (tile_params base threads pat start count)
        (occ, geo, attr)) "frameCount"
      = some ((pget base "frameCount").getD (.n count)) := by
  have hB : ∀ k, k ≠ "nbThread" →
      pget (match threads with
        | some th => if th = 0 then base else pset base "nbThread" (.n th)
        | none => base) k = pget base k := by
    intro k hk
    cases threads with
    | none => rfl
    | some th =>
      by_cases h0 : th = 0
      · simp [h0]
      · simp only [h0, if_false]
        exact pget_pset_ne base "nbThread" (.n th) k hk
  simp only [encode_task_params, tile_params]
  refine ⟨?_, ?_, ?_, ?_, ?_, ?_⟩
  · rw [pget_pset_ne _ _ _ _ (by decide), pget_pset_ne _ _ _ _ (by decide),
      pget_pset_self]
  · rw [pget_pset_ne _ _ _ _ (by decide), pget_pset_self]
  · rw [pget_pset_self]
  · rw [pget_pset_ne _ _ _ _ (by decide), pget_pset_ne _ _ _ _ (by decide),
      pget_pset_ne _ _ _ _ (by decide), pget_psetdefault_ne _ _ _ _ (by decide),
      pget_psetdefault_ne _ _ _ _ (by decide), pget_psetdefault_self,
      hB _ (by decide)]
  · rw [pget_pset_ne _ _ _ _ (by decide), pget_pset_ne _ _ _ _ (by decide),
      pget_pset_ne _ _ _ _ (by decide), pget_psetdefault_ne _ _ _ _ (by decide),
      pget_psetdefault_self, pget_psetdefault_ne _ _ _ _ (by decide),
      hB _ (by decide)]
  · rw [pget_pset_ne _ _ _ _ (by decide), pget_pset_ne _ _ _ _ (by decide),
      pget_pset_ne _ _ _ _ (by decide), pget_psetdefault_self,
      pget_psetdefault_ne _ _ _ _ (by decide),
      pget_psetdefault_ne _ _ _ _ (by decide), hB _ (by decide)]

/-- Witness for C9's amended statement: a base with `frameCount` present
and `startFrameNumber` absent. -/
theorem encode_params_precedence_witness :
    pget (encode_task_params
        (tile_params [("frameCount", PVal.n 99)] none "f%04d.ply" 0 10)
        (24, 32, 43)) "occupancyMapQP" = some (.n 24) ∧
    pget (encode_task_params
        (tile_params [("frameCount", PVal.n 99)] none "f%04d.ply" 0 10)
        (24, 32, 43)) "startFrameNumber" = some (.n 0) ∧
    pget (encode_task_params
        (tile_params [("frameCount", PVal.n 99)] none "f%04d.ply" 0 10)
        (24, 32, 43)) "frameCount" = some (.n 99) := by
  have h := encode_params_precedence [("frameCount", PVal.n 99)] none
    "f%04d.ply" 0 10 24 32 43
  exact ⟨h.1, h.2.2.2.2.1, h.2.2.2.2.2⟩

theorem plan_tile_infos_length (base : List (String × PVal))
    (threads : Option Nat) (tiles : List (String × List String))
    (infos : List (String × List (String × PVal)))
    (h : plan_tile_infos base threads tiles = .ok infos) :
    infos.length = tiles.length := by
  induction tiles generalizing infos with
  | nil =>
    rw [plan_tile_infos] at h
    injection h with h1
    rw [← h1]
    rfl
  | cons t ts ih =>
    rw [plan_tile_infos] at h
    cases hd : derive_frame_sequence t.2 with
    | error e =>
      rw [hd, except_bind_err] at h
      exact absurd h (by simp)
    | ok r =>
      rw [hd, except_bind_ok] at h
      cases hr : plan_tile_infos base threads ts with
      | error e =>
        rw [hr, except_bind_err] at h
        exact absurd h (by simp)
      | ok rest =>
        rw [hr, except_bind_ok] at h
        injection h with h1
        rw [← h1]
        simp [ih rest hr]

theorem flatten_uniform_length {β γ : Type} (es : List γ) (g : γ → List β)
    (w : Nat) (hw : ∀ e, (g e).length = w) :
    ((es.map g).flatten).length = es.length * w := by
  induction es with
  | nil => simp
  | cons e es ih =>
    simp only [List.map_cons, List.flatten_cons, List.length_append, ih, hw,
      List.length_cons]
    ring

theorem flatten_uniform_getD {β : Type} (ls : List (List β)) (w : Nat) (d : β)
    (hw : ∀ l ∈ ls, l.length = w)
    (q t : Nat) (hq : q < ls.length) (ht : t < w) :
    ls.flatten.getD (q * w + t) d = (ls.getD q []).getD t d := by
  induction ls generalizing q with
  | nil => simp at hq
  | cons l ls ih =>
    have hl : l.length = w := hw l (by simp)
    cases q with
    | zero =>
      simp only [List.flatten_cons, Nat.zero_mul, Nat.zero_add,
        List.getD_cons_zero]
      exact List.getD_append l ls.flatten d t (by omega)
    | succ q2 =>
      simp only [List.flatten_cons, List.getD_cons_succ]
      have harith : (q2 + 1) * w + t = l.length + (q2 * w + t) := by
        rw [hl]
        ring
      rw [harith, List.getD_append_right l ls.flatten d _ (by omega),
        Nat.add_sub_cancel_left]
      exact ih (fun l2 hl2 => hw l2 (by simp [hl2])) q2 (by simpa using hq)

/-- C8: with `T` tile directories that each derive a frame sequence and
`Q` QPConfig triples, the planner builds exactly `T*Q` encode jobs,
ordered QP-major and tile-minor (job `q*T + t` carries QP index `q` and
tile `t`); and on the spec's scenario — one tile with frames
`f0000.ply..f0009.ply` and QP list `[(24,32,43)]` — it infers pattern
`f%04d.ply`, start 0, count 10, and builds exactly one job. -/
theorem job_graph_builder_spec :
    (∀ (tiles : List (String × List String)) (qps : List (Nat × Nat × Nat))
        (base : List (String × PVal)) (threads : Option Nat)
        (infos : List (String × List (String × PVal))),
      qps ≠ [] →
      plan_tile_infos base threads tiles = .ok infos →
      encode_tiles_with_qp_pairs_plan tiles qps base threads
          = .ok (buildTasks infos qps) ∧
        (buildTasks infos qps).length = tiles.length * qps.length ∧
        ∀ q t, q < qps.length → t < tiles.length →
          (buildTasks infos qps).getD (q * tiles.length + t)
              (0, "", [], (0, 0, 0))
            = (q, (infos.getD t ("", [])).1, (infos.getD t ("", [])).2,
               qps.getD q (0, 0, 0))) ∧
    derive_frame_sequence ["f0000", "f0001", "f0002", "f0003", "f0004",
      "f0005", "f0006", "f0007", "f0008", "f0009"] = .ok ("f%04d.ply", 0, 10) ∧
    ∀ tasks1, encode_tiles_with_qp_pairs_plan
        [("tile_0", ["f0000", "f0001", "f0002", "f0003", "f0004",
          "f0005", "f0006", "f0007", "f0008", "f0009"])]
        [(24, 32, 43)] [] none = .ok tasks1 → tasks1.length = 1 := by
  have hmain : ∀ (tiles : List (String × List String))
      (qps : List (Nat × Nat × Nat)) (base : List (String × PVal))
      (threads : Option Nat) (infos : List (String × List (String × PVal))),
      qps ≠ [] →
      plan_tile_infos base threads tiles = .ok infos →
      encode_tiles_with_qp_pairs_plan tiles qps base threads
          = .ok (buildTasks infos qps) ∧
        (buildTasks infos qps).length = tiles.length * qps.length ∧
        ∀ q t, q < qps.length → t < tiles.length →
          (buildTasks infos qps).getD (q * tiles.length + t)
              (0, "", [], (0, 0, 0))
            = (q, (infos.getD t ("", [])).1, (infos.getD t ("", [])).2,
               qps.getD q (0, 0, 0)) := by
    intro tiles qps base threads infos hq hplan
    have hlen : infos.length = tiles.length :=
      plan_tile_infos_length base threads tiles infos hplan
    have hnorm : normalize_qp_pairs qps = .ok qps := by
      rw [normalize_qp_pairs, if_neg]
      simp [hq]
    refine ⟨?_, ?_, ?_⟩
    · rw [encode_tiles_with_qp_pairs_plan]
      rw [hnorm, except_bind_ok, hplan, except_bind_ok]
      rfl
    · rw [buildTasks,
        flatten_uniform_length qps.enum _ infos.length (fun e => by simp),
        List.enum_length, hlen]
      ring
    · intro q t hqlt htlt
      have htlt2 : t < infos.length := by omega
      rw [buildTasks, ← hlen]
      rw [flatten_uniform_getD _ infos.length _ ?hwid q t ?hq2 htlt2]
      case hwid =>
        intro l hl
        simp only [List.mem_map] at hl
        obtain ⟨e, _, he⟩ := hl
        rw [← he]
        simp
      case hq2 =>
        rw [List.length_map, List.enum_length]
        exact hqlt
      rw [List.getD_eq_getElem infos ("", []) htlt2,
        List.getD_eq_getElem qps (0, 0, 0) hqlt]
      rw [List.getD_eq_getElem
        (List.map (fun iq =>
          List.map (fun info => (iq.1, info.1, info.2, iq.2)) infos) qps.enum)
        [] (by rw [List.length_map, List.enum_length]; exact hqlt)]
      rw [List.getElem_map, List.getElem_enum]
      rw [List.getD_eq_getElem _ (0, "", [], (0, 0, 0))
        (by rw [List.length_map]; exact htlt2)]
      rw [List.getElem_map]
  refine ⟨hmain, rfl, ?_⟩
  intro tasks1 h1
  have hp : plan_tile_infos [] none
      [("tile_0", ["f0000", "f0001", "f0002", "f0003", "f0004",
        "f0005", "f0006", "f0007", "f0008", "f0009"])]
      = .ok [("tile_0", tile_params [] none "f%04d.ply" 0 10)] := rfl
  have h2 := hmain _ [(24, 32, 43)] [] none _ (by simp) hp
  rw [h2.1] at h1
  injection h1 with h3
  rw [← h3, h2.2.1]
  rfl

/-- Witness for C8 at the scenario input: one tile directory with ten
frames and a single QP triple yield exactly one job. -/
theorem job_graph_builder_spec_witness :
    encode_tiles_with_qp_pairs_plan
        [("tile_0", ["f0000", "f0001", "f0002", "f0003", "f0004",
          "f0005", "f0006", "f0007", "f0008", "f0009"])]
        [(24, 32, 43)] [] none
      = .ok (buildTasks [("tile_0", tile_params [] none "f%04d.ply" 0 10)]
          [(24, 32, 43)]) ∧
    (buildTasks [("tile_0", tile_params [] none "f%04d.ply" 0 10)]
        [(24, 32, 43)]).length = 1 := by
  have h := job_graph_builder_spec.1
    [("tile_0", ["f0000", "f0001", "f0002", "f0003", "f0004",
      "f0005", "f0006", "f0007", "f0008", "f0009"])]
    [(24, 32, 43)] [] none
    [("tile_0", tile_params [] none "f%04d.ply" 0 10)]
    (by simp) rfl
  refine ⟨h.1, ?_⟩
  rw [h.2.1]
  rfl
